import Mathlib

/-!
Verification of the SOL transfer monitor (sol_transfer_monitor.py).

Shallow embedding of the transfer-detection core (parse_sol_transfer), the
dedup ledger (load_processed_signatures / save_processed_signature), the
transfer sink record shaping (save_transfer), and the per-signature step of
the polling loop (monitor_transfers).  Machine integers are modelled as Int
(Python ints are unbounded), lamport amounts divided by 1e9 are modelled in
the rationals, Python exceptions caught by the try/except blocks are
modelled by explicit failure results, and the durable files are modelled as
character lists.
-/

set_option autoImplicit false

abbrev Addr := String

/-- The Address Registry: a single source address (binance_wallet in the
source) and a list of target addresses (wintermute_wallets). -/
structure Registry where
  source : Addr
  targets : List Addr
deriving DecidableEq, Repr

/-- self.all_wallets = [self.binance_wallet] + self.wintermute_wallets -/
def Registry.allWallets (r : Registry) : List Addr :=
  r.source :: r.targets

/-- The metadata section of a transaction payload: the err flag (truthiness
of meta.get("err")) and the parallel balance arrays. -/
structure TxMeta where
  err : Bool
  preBalances : List Int
  postBalances : List Int
deriving DecidableEq, Repr

/-- A decoded transaction-detail payload.  meta is none when the payload
lacks the "meta" section; blockTime is none when the payload lacks the
"blockTime" field (both accesses raise KeyError in the source, caught by
the surrounding try/except, which then returns None). -/
structure TxDetails where
  meta : Option TxMeta
  accountKeys : List Addr
  blockTime : Option Int
deriving DecidableEq, Repr

/-- The dict returned by parse_sol_transfer on a match. -/
structure TransferEvent where
  signature : String
  from_wallet : Addr
  to_wallet : Addr
  amount_sol : ℚ
  timestamp : Int
deriving DecidableEq, Repr

/-- The divisor 1e9 converting lamports to SOL. -/
def lamportsPerSol : ℚ := 1000000000

/-- Outcome of one of the for-loops inside parse_sol_transfer: fail models
a Python exception escaping the loop (caught by the enclosing try/except),
found models hitting the return statement, done models loop exhaustion. -/
inductive ScanResult (α : Type) where
  | fail : ScanResult α
  | found : α → ScanResult α
  | done : ScanResult α
deriving DecidableEq, Repr

/-- The direction/amount block of parse_sol_transfer (source lines
246-254): with account the outer-loop wallet and bc its balance_change, a
negative bc makes account the sender with amount abs(bc)/1e9, otherwise
the counterpart is the sender and the amount is bc/1e9 (still taken from
the outer-loop balance_change). -/
def transferCandidate (account other : Addr) (bc : Int) : Addr × Addr × ℚ :=
  if bc < 0 then (account, other, (bc.natAbs : ℚ) / lamportsPerSol)
  else (other, account, (bc : ℚ) / lamportsPerSol)

/-- The Binance-Wintermute qualification test of parse_sol_transfer
(source lines 257-258). -/
def qualifiesPair (reg : Registry) (fw tw : Addr) : Prop :=
  (fw = reg.source ∧ tw ∈ reg.targets) ∨ (fw ∈ reg.targets ∧ tw = reg.source)

instance (reg : Registry) (fw tw : Addr) : Decidable (qualifiesPair reg fw tw) := by
  unfold qualifiesPair
  infer_instance

/-- The inner for-loop of parse_sol_transfer (the search for the
counterpart wallet, source lines 241-271), scanning account_keys from
index j with the outer-loop account and its balance_change fixed.  The
balance lookup at j is performed only when the first two conditions of the
Python if hold (short-circuit and), and an out-of-range lookup is the
IndexError path. -/
def innerScan (reg : Registry) (pre post : List Int) (account : Addr) (bc : Int) :
    Nat → List Addr → ScanResult (Addr × Addr × ℚ)
  | _, [] => .done
  | j, other :: rest =>
    if other ∈ reg.allWallets ∧ other ≠ account then
      match post.get? j, pre.get? j with
      | some po, some pr =>
        if (po - pr).natAbs > 0 then
          if qualifiesPair reg (transferCandidate account other bc).1
              (transferCandidate account other bc).2.1 then
            .found (transferCandidate account other bc)
          else
            innerScan reg pre post account bc (j + 1) rest
        else
          innerScan reg pre post account bc (j + 1) rest
      | _, _ => .fail
    else
      innerScan reg pre post account bc (j + 1) rest

/-- The outer for-loop of parse_sol_transfer (source lines 232-271),
scanning account_keys from index i; allKeys is the full account list handed
to each inner scan. -/
def outerScan (reg : Registry) (pre post : List Int) (allKeys : List Addr) :
    Nat → List Addr → ScanResult (Addr × Addr × ℚ)
  | _, [] => .done
  | i, account :: rest =>
    if account ∈ reg.allWallets then
      match post.get? i, pre.get? i with
      | some po, some pr =>
        if (po - pr).natAbs > 0 then
          match innerScan reg pre post account (po - pr) 0 allKeys with
          | .fail => .fail
          | .found r => .found r
          | .done => outerScan reg pre post allKeys (i + 1) rest
        else
          outerScan reg pre post allKeys (i + 1) rest
      | _, _ => .fail
    else
      outerScan reg pre post allKeys (i + 1) rest

/-- parse_sol_transfer (source lines 209-277).  Returns none on a missing
meta section, a truthy err flag, an exception escaping the scan (caught by
the try/except), a missing blockTime, or an exhausted scan. -/
def parse_sol_transfer (reg : Registry) (tx : TxDetails) (signature : String) :
    Option TransferEvent :=
  match tx.meta with
  | none => none
  | some meta =>
    if meta.err then none
    else
      match outerScan reg meta.preBalances meta.postBalances tx.accountKeys 0 tx.accountKeys with
      | .fail => none
      | .done => none
      | .found (fw, tw, amount) =>
        match tx.blockTime with
        | none => none
        | some t => some ⟨signature, fw, tw, amount, t⟩

/-- The balance delta at index k (post minus pre), defined when both
arrays cover k. -/
def deltaAt (pre post : List Int) (k : Nat) : Int :=
  post.getD k 0 - pre.getD k 0

/-- Index k carries a nonzero balance delta with both balance arrays
covering it. -/
def ActiveIdx (pre post : List Int) (k : Nat) : Prop :=
  ∃ po pr, post.get? k = some po ∧ pre.get? k = some pr ∧ po - pr ≠ 0

/-- Exactly one of the two parties is the source address and the other is
a target address. -/
def ExactlyOneSourceTarget (reg : Registry) (fw tw : Addr) : Prop :=
  (fw = reg.source ∧ tw ≠ reg.source ∧ tw ∈ reg.targets) ∨
    (tw = reg.source ∧ fw ≠ reg.source ∧ fw ∈ reg.targets)

/-- The concrete registry of the source: binance_wallet. -/
def binance_wallet : Addr := "5tzFkiKscXHK5ZXCGbXZxdw7gTjjD1mBwuoFbhUvuAi9"

/-- The concrete registry of the source: wintermute_wallets. -/
def wintermute_wallets : List Addr :=
  ["77DXFZnMebramt4dXfdwem1AjnfNnVnG8FkcVWpSwdjB",
   "ApQnTEGUNsKsM48AjFLy1yDukBwk8WgjorYe6KduVmnr",
   "44P5Ct5JkPz76Rs2K6juC65zXMpFRDrHatxcASJ4Dyra",
   "42nh6ig8ADj87iLpqtn7EzXk4yVg1X2LZtCJdaabHMEw",
   "4DTTpRo9BtATsVgxtiLtnFRLxiYGhCtuXrJ2njs2tgJC",
   "BFAcmjQFzvxL1xEejUHVUcnAqq5yWhmKUyh3uSeTRoCz"]

/-- The registry as configured in SolanaTransferMonitor.__init__. -/
def theRegistry : Registry :=
  ⟨binance_wallet, wintermute_wallets⟩

/-- The wallet_types dict of get_wallet_type (source lines 281-289). -/
def wallet_types : List (Addr × String) :=
  [("5tzFkiKscXHK5ZXCGbXZxdw7gTjjD1mBwuoFbhUvuAi9", "Binance Hot Wallet"),
   ("77DXFZnMebramt4dXfdwem1AjnfNnVnG8FkcVWpSwdjB", "Gate.io Deposit Wintermute"),
   ("ApQnTEGUNsKsM48AjFLy1yDukBwk8WgjorYe6KduVmnr", "Backpack Exchange Deposit Wintermute"),
   ("44P5Ct5JkPz76Rs2K6juC65zXMpFRDrHatxcASJ4Dyra", "Wintermute Hot Wallet"),
   ("42nh6ig8ADj87iLpqtn7EzXk4yVg1X2LZtCJdaabHMEw", "KuCoin Wintermute Deposit"),
   ("4DTTpRo9BtATsVgxtiLtnFRLxiYGhCtuXrJ2njs2tgJC", "OKX Deposit Wintermute"),
   ("BFAcmjQFzvxL1xEejUHVUcnAqq5yWhmKUyh3uSeTRoCz", "Bitvavo Wintermute")]

/-- get_wallet_type (source lines 279-290). -/
def get_wallet_type (wallet_address : Addr) : String :=
  (wallet_types.lookup wallet_address).getD "Unknown Wallet"

/-- One CSV row written by save_transfer (source lines 350-362).  The
human-readable strftime timestamp string is not modelled (pure
formatting); the raw unix timestamp column is. -/
structure LedgerRecord where
  unix_timestamp : Int
  signature : String
  from_wallet : Addr
  to_wallet : Addr
  amount_sol : ℚ
  direction : String
  wintermute_wallet : String
deriving DecidableEq, Repr

/-- The record shaping of save_transfer (source lines 321-362): direction
and counterpart label are derived from whether the sender is the source
wallet. -/
def save_transfer_record (reg : Registry) (ev : TransferEvent) : LedgerRecord :=
  if ev.from_wallet = reg.source then
    ⟨ev.timestamp, ev.signature, ev.from_wallet, ev.to_wallet, ev.amount_sol,
      "Binance_to_Wintermute", get_wallet_type ev.to_wallet⟩
  else
    ⟨ev.timestamp, ev.signature, ev.from_wallet, ev.to_wallet, ev.amount_sol,
      "Wintermute_to_Binance", get_wallet_type ev.from_wallet⟩

/-- The cross-cycle state of the monitor: the in-memory processed set, the
raw character contents of processed_signatures.txt, and the rows of
sol_transfers.csv. -/
structure MonitorState where
  processed_signatures : List String
  sig_file : List Char
  ledger : List LedgerRecord
deriving DecidableEq, Repr

/-- The Python str.isspace character class used by str.strip with no
argument: TAB through CR (09-0D), the information separators 1C-1F,
space, NEL (85), NBSP (A0), OGHAM SPACE MARK (1680), the EN-QUAD..HAIR
SPACE range (2000-200A), LINE and PARAGRAPH SEPARATOR (2028, 2029),
NARROW NBSP (202F), MEDIUM MATHEMATICAL SPACE (205F) and IDEOGRAPHIC
SPACE (3000). -/
def pyIsSpace (c : Char) : Bool :=
  decide (c.val = 0x20 ∨ (0x09 ≤ c.val ∧ c.val ≤ 0x0d) ∨ (0x1c ≤ c.val ∧ c.val ≤ 0x1f) ∨
    c.val = 0x85 ∨ c.val = 0xa0 ∨ c.val = 0x1680 ∨
    (0x2000 ≤ c.val ∧ c.val ≤ 0x200a) ∨ c.val = 0x2028 ∨ c.val = 0x2029 ∨
    c.val = 0x202f ∨ c.val = 0x205f ∨ c.val = 0x3000)

/-- Splitting a file into the lines yielded by Python text-mode file
iteration (universal newlines): LF ends a line, CR ends a line, and a
CRLF pair ends a single line (the afterCR flag records that the previous
character was a CR whose following LF must be swallowed); a final
unterminated chunk is yielded as a last line (an empty trailing chunk is
not). -/
def splitLinesGo (afterCR : Bool) (cur : List Char) : List Char → List (List Char)
  | [] => if cur.isEmpty then [] else [cur.reverse]
  | c :: cs =>
    if afterCR = true ∧ c = '\n' then
      splitLinesGo false cur cs
    else if c = '\n' ∨ c = '\r' then
      cur.reverse :: splitLinesGo (decide (c = '\r')) [] cs
    else
      splitLinesGo false (c :: cur) cs

/-- Python str.strip on a line: drop str.isspace characters from both
ends. -/
def stripChars (cs : List Char) : List Char :=
  ((cs.dropWhile pyIsSpace).reverse.dropWhile pyIsSpace).reverse

/-- load_processed_signatures (source lines 113-121): read the durable
file and strip each line. -/
def load_processed_signatures (file : List Char) : List String :=
  (splitLinesGo false [] file).map (fun l => String.mk (stripChars l))

/-- save_processed_signature (source lines 123-130): add to the in-memory
set, then append the signature plus a newline to the durable file. -/
def save_processed_signature (st : MonitorState) (signature : String) : MonitorState :=
  { st with
    processed_signatures := signature :: st.processed_signatures
    sig_file := st.sig_file ++ signature.data ++ ['\n'] }

/-- Marking a batch of identifiers processed, one save_processed_signature
call each. -/
def saveAllSignatures (st : MonitorState) (sigs : List String) : MonitorState :=
  sigs.foldl save_processed_signature st

/-- The per-signature body of the polling loop (monitor_transfers, source
lines 410-431): skip if already processed; fetch details and skip (without
marking) when the fetch yields nothing; otherwise run the detector, append
a ledger row on a match, and mark the signature processed.  details stands
for the get_transaction_details collaborator. -/
def process_signature (reg : Registry) (details : String → Option TxDetails)
    (st : MonitorState) (signature : String) : MonitorState :=
  if signature ∈ st.processed_signatures then st
  else
    match details signature with
    | none => st
    | some txd =>
      let st1 :=
        match parse_sol_transfer reg txd signature with
        | some ev => { st with ledger := st.ledger ++ [save_transfer_record reg ev] }
        | none => st
      save_processed_signature st1 signature

/-- Number of ledger rows carrying a given transaction identifier. -/
def countSig (l : List LedgerRecord) (signature : String) : Nat :=
  (l.filter (fun r => r.signature = signature)).length

/-- A failed transaction between registry wallets, used to instantiate
claim3_failed_tx_no_event. -/
def txFailed : TxDetails :=
  { meta := some ⟨true, [500, 0], [0, 500]⟩
    accountKeys := [binance_wallet, "77DXFZnMebramt4dXfdwem1AjnfNnVnG8FkcVWpSwdjB"]
    blockTime := some 0 }

/-- The Gate.io deposit wallet, first entry of wintermute_wallets. -/
def gate_wallet : Addr := "77DXFZnMebramt4dXfdwem1AjnfNnVnG8FkcVWpSwdjB"

/-- The clean two-party 500 SOL transfer of the spec scenario: source
delta -500_000_000_000 lamports, one target delta +500_000_000_000. -/
def txTwoParty : TxDetails :=
  { meta := some ⟨false, [500000000000, 0], [0, 500000000000]⟩
    accountKeys := [binance_wallet, gate_wallet]
    blockTime := some 1700000000 }

/-- The event the detector produces for txTwoParty. -/
def evTwoParty : TransferEvent :=
  ⟨"sigC2", binance_wallet, gate_wallet, (500000000000 : ℚ) / lamportsPerSol, 1700000000⟩

/-- A successful transaction where the receiving target account (delta
+500) is scanned before the sending source account (delta -600): the
deltas do not match and the code reports the receiving-side amount. -/
def txC1 : TxDetails :=
  { meta := some ⟨false, [0, 600], [500, 0]⟩
    accountKeys := [gate_wallet, binance_wallet]
    blockTime := some 0 }

/-- The event the detector produces for txC1: amount 500/1e9 taken from
the receiving side, although the sending side moved 600 lamports. -/
def evC1 : TransferEvent :=
  ⟨"sigC1", binance_wallet, gate_wallet, (500 : ℚ) / lamportsPerSol, 0⟩

/-- A successful transaction where the only active registry account is the
source wallet (no counterpart). -/
def txOnlySource : TxDetails :=
  { meta := some ⟨false, [500], [0]⟩
    accountKeys := [binance_wallet]
    blockTime := some 0 }

/-- A file is empty or ends with a newline; every write of
save_processed_signature keeps this invariant. -/
def TerminatedFile (f : List Char) : Prop :=
  f = [] ∨ ∃ g, f = g ++ ['\n']

/-- The initial monitor state: empty processed set, empty durable file,
empty ledger. -/
def st0 : MonitorState :=
  ⟨[], [], []⟩

/-- A detail-fetch collaborator that never returns a payload (timeouts,
rate limits, RPC errors all yield None in make_rpc_request). -/
def detailsNone : String → Option TxDetails :=
  fun _ => none

/-- A detail-fetch collaborator returning the two-party transfer payload. -/
def detailsTwoParty : String → Option TxDetails :=
  fun _ => some txTwoParty

/-- An incomplete payload: three account keys but only two balance
entries; the qualifying registry pair sits inside the covered prefix. -/
def txC9 : TxDetails :=
  { meta := some ⟨false, [500000000000, 0], [0, 500000000000]⟩
    accountKeys := [binance_wallet, gate_wallet, "junkaccount"]
    blockTime := some 0 }

/-- The event the detector produces for the incomplete payload txC9. -/
def evC9 : TransferEvent :=
  ⟨"sigC9", binance_wallet, gate_wallet, (500000000000 : ℚ) / lamportsPerSol, 0⟩

/-- A payload missing the metadata section entirely. -/
def txNoMeta : TxDetails :=
  ⟨none, [binance_wallet], some 0⟩

/-- A payload whose balance arrays are empty while registry accounts are
listed: the first balance lookup raises IndexError in the source. -/
def txEmptyBal : TxDetails :=
  ⟨some ⟨false, [], []⟩, [binance_wallet, gate_wallet], some 0⟩

theorem transferCandidate_neg {account other : Addr} {bc : Int} (h : bc < 0) :
    transferCandidate account other bc = (account, other, (bc.natAbs : ℚ) / lamportsPerSol) := by
  simp [transferCandidate, h]

theorem transferCandidate_nonneg {account other : Addr} {bc : Int} (h : ¬ bc < 0) :
    transferCandidate account other bc = (other, account, (bc : ℚ) / lamportsPerSol) := by
  simp [transferCandidate, h]

/-- Soundness of the inner scan: a found result exhibits a counterpart
wallet at some index with a nonzero delta, and the result is the
direction/amount block of the outer account against that counterpart,
passing the qualification test. -/
theorem innerScan_found_sound (reg : Registry) (pre post : List Int) (account : Addr)
    (bc : Int) (keys : List Addr) :
    ∀ (j : Nat) (r : Addr × Addr × ℚ),
      innerScan reg pre post account bc j keys = .found r →
      ∃ k other po pr,
        keys.get? k = some other ∧
        post.get? (j + k) = some po ∧ pre.get? (j + k) = some pr ∧
        po - pr ≠ 0 ∧ other ∈ reg.allWallets ∧ other ≠ account ∧
        r = transferCandidate account other bc ∧
        qualifiesPair reg r.1 r.2.1 := by
  induction keys with
  | nil =>
    intro j r h
    simp [innerScan] at h
  | cons other rest ih =>
    intro j r h
    simp only [innerScan] at h
    split at h
    · split at h
      · rename_i hc o1 o2 po pr hpo hpr
        clear o1 o2
        split at h
        · rename_i hact
          split at h
          · rename_i hq
            have hr : transferCandidate account other bc = r := ScanResult.found.inj h
            refine ⟨0, other, po, pr, rfl, ?_, ?_, ?_, hc.1, hc.2, hr.symm, ?_⟩
            · simpa using hpo
            · simpa using hpr
            · intro h0
              rw [h0] at hact
              simp at hact
            · rw [← hr]
              exact hq
          · rcases ih (j + 1) r h with ⟨k, o2, po2, pr2, hk, hpo2, hpr2, hne, hw, hna, hrr, hqq⟩
            refine ⟨k + 1, o2, po2, pr2, by simpa using hk, ?_, ?_, hne, hw, hna, hrr, hqq⟩
            · rw [show j + (k + 1) = j + 1 + k by omega]
              exact hpo2
            · rw [show j + (k + 1) = j + 1 + k by omega]
              exact hpr2
        · rcases ih (j + 1) r h with ⟨k, o2, po2, pr2, hk, hpo2, hpr2, hne, hw, hna, hrr, hqq⟩
          refine ⟨k + 1, o2, po2, pr2, by simpa using hk, ?_, ?_, hne, hw, hna, hrr, hqq⟩
          · rw [show j + (k + 1) = j + 1 + k by omega]
            exact hpo2
          · rw [show j + (k + 1) = j + 1 + k by omega]
            exact hpr2
      · simp at h
    · rcases ih (j + 1) r h with ⟨k, o2, po2, pr2, hk, hpo2, hpr2, hne, hw, hna, hrr, hqq⟩
      refine ⟨k + 1, o2, po2, pr2, by simpa using hk, ?_, ?_, hne, hw, hna, hrr, hqq⟩
      · rw [show j + (k + 1) = j + 1 + k by omega]
        exact hpo2
      · rw [show j + (k + 1) = j + 1 + k by omega]
        exact hpr2

/-- Soundness of the outer scan: a found result exhibits an outer account
at some index with a nonzero delta whose inner scan found the result. -/
theorem outerScan_found_sound (reg : Registry) (pre post : List Int) (allKeys : List Addr)
    (keys : List Addr) :
    ∀ (i : Nat) (r : Addr × Addr × ℚ),
      outerScan reg pre post allKeys i keys = .found r →
      ∃ m account po pr,
        keys.get? m = some account ∧
        post.get? (i + m) = some po ∧ pre.get? (i + m) = some pr ∧
        po - pr ≠ 0 ∧ account ∈ reg.allWallets ∧
        innerScan reg pre post account (po - pr) 0 allKeys = .found r := by
  induction keys with
  | nil =>
    intro i r h
    simp [outerScan] at h
  | cons account rest ih =>
    intro i r h
    simp only [outerScan] at h
    split at h
    · split at h
      · rename_i hc o1 o2 po pr hpo hpr
        clear o1 o2
        split at h
        · rename_i hact
          split at h
          · simp at h
          · rename_i r2 hinner
            have hr : r2 = r := ScanResult.found.inj h
            subst hr
            refine ⟨0, account, po, pr, rfl, by simpa using hpo, by simpa using hpr, ?_, hc, hinner⟩
            intro h0
            rw [h0] at hact
            simp at hact
          · rcases ih (i + 1) r h with ⟨m, a2, po2, pr2, hm, hpo2, hpr2, hne, hw, hinner⟩
            refine ⟨m + 1, a2, po2, pr2, by simpa using hm, ?_, ?_, hne, hw, hinner⟩
            · rw [show i + (m + 1) = i + 1 + m by omega]
              exact hpo2
            · rw [show i + (m + 1) = i + 1 + m by omega]
              exact hpr2
        · rcases ih (i + 1) r h with ⟨m, a2, po2, pr2, hm, hpo2, hpr2, hne, hw, hinner⟩
          refine ⟨m + 1, a2, po2, pr2, by simpa using hm, ?_, ?_, hne, hw, hinner⟩
          · rw [show i + (m + 1) = i + 1 + m by omega]
            exact hpo2
          · rw [show i + (m + 1) = i + 1 + m by omega]
            exact hpr2
      · simp at h
    · rcases ih (i + 1) r h with ⟨m, a2, po2, pr2, hm, hpo2, hpr2, hne, hw, hinner⟩
      refine ⟨m + 1, a2, po2, pr2, by simpa using hm, ?_, ?_, hne, hw, hinner⟩
      · rw [show i + (m + 1) = i + 1 + m by omega]
        exact hpo2
      · rw [show i + (m + 1) = i + 1 + m by omega]
        exact hpr2

/-- Soundness of the whole detector: any returned event comes from a pair
of distinct registry wallets at indices with nonzero deltas, the event is
the direction/amount block of the outer account against the counterpart,
and the pair passes the qualification test. -/
theorem parse_found_sound (reg : Registry) (tx : TxDetails) (sig : String)
    (e : TransferEvent) (h : parse_sol_transfer reg tx sig = some e) :
    ∃ mt, tx.meta = some mt ∧ mt.err = false ∧
      ∃ ts, tx.blockTime = some ts ∧
        ∃ i account po pr j other qo qr,
          tx.accountKeys.get? i = some account ∧
          mt.postBalances.get? i = some po ∧ mt.preBalances.get? i = some pr ∧
          po - pr ≠ 0 ∧ account ∈ reg.allWallets ∧
          tx.accountKeys.get? j = some other ∧
          mt.postBalances.get? j = some qo ∧ mt.preBalances.get? j = some qr ∧
          qo - qr ≠ 0 ∧ other ∈ reg.allWallets ∧ other ≠ account ∧
          e = ⟨sig, (transferCandidate account other (po - pr)).1,
                (transferCandidate account other (po - pr)).2.1,
                (transferCandidate account other (po - pr)).2.2, ts⟩ ∧
          qualifiesPair reg e.from_wallet e.to_wallet := by
  unfold parse_sol_transfer at h
  split at h
  · exact absurd h (by simp)
  · rename_i mt hmt
    split at h
    · exact absurd h (by simp)
    · rename_i herr
      split at h
      · exact absurd h (by simp)
      · exact absurd h (by simp)
      · rename_i fw tw amount hscan
        split at h
        · exact absurd h (by simp)
        · rename_i ts hts
          rcases outerScan_found_sound reg mt.preBalances mt.postBalances tx.accountKeys
              tx.accountKeys 0 (fw, tw, amount) hscan with
            ⟨m, account, po, pr, hm, hpo, hpr, hne, hw, hinner⟩
          rcases innerScan_found_sound reg mt.preBalances mt.postBalances account (po - pr)
              tx.accountKeys 0 (fw, tw, amount) hinner with
            ⟨k, other, qo, qr, hk, hqo, hqr, hne2, hw2, hna2, hrr, hqq⟩
          have he : e = ⟨sig, fw, tw, amount, ts⟩ := (Option.some.inj h).symm
          refine ⟨mt, hmt, by simpa using herr, ts, hts, m, account, po, pr, k, other, qo, qr,
            hm, by simpa using hpo, by simpa using hpr, hne, hw,
            hk, by simpa using hqo, by simpa using hqr, hne2, hw2, hna2, ?_, ?_⟩
          · rw [he, ← hrr]
          · rw [he]
            obtain ⟨hfw, htw⟩ : fw = (transferCandidate account other (po - pr)).1 ∧
                tw = (transferCandidate account other (po - pr)).2.1 := by
              rw [← hrr]
              exact ⟨rfl, rfl⟩
            simpa [hfw, htw] using hqq

/-- C3: for every transaction carrying the failure flag, the Transfer
Detector returns no event, regardless of the account list and balance
deltas. -/
theorem claim3_failed_tx_no_event (reg : Registry) (tx : TxDetails) (sig : String)
    (m : TxMeta) (hm : tx.meta = some m) (herr : m.err = true) :
    parse_sol_transfer reg tx sig = none := by
  simp [parse_sol_transfer, hm, herr]

/-- Witness for C3 at a concrete failed transaction. -/
theorem claim3_witness : parse_sol_transfer theRegistry txFailed "sigC3" = none :=
  claim3_failed_tx_no_event theRegistry txFailed "sigC3" ⟨true, [500, 0], [0, 500]⟩ rfl rfl

/-- A qualifying pair of distinct wallets has exactly one source-side
member, the other being a target. -/
theorem qualifies_exactlyOne {reg : Registry} {fw tw : Addr}
    (hq : qualifiesPair reg fw tw) (hne : fw ≠ tw) :
    ExactlyOneSourceTarget reg fw tw := by
  rcases hq with ⟨h1, h2⟩ | ⟨h1, h2⟩
  · exact Or.inl ⟨h1, by rw [← h1]; exact Ne.symm hne, h2⟩
  · exact Or.inr ⟨h2, by rw [← h2]; exact hne, h1⟩

/-- Mid-level soundness: any returned event names two distinct active
registry wallets, one of which is the outer-scan account, it passes the
qualification test, and it carries the transaction identifier. -/
theorem parse_found_parties (reg : Registry) (tx : TxDetails) (sig : String)
    (e : TransferEvent) (h : parse_sol_transfer reg tx sig = some e) :
    ∃ mt ts i account j other,
      tx.meta = some mt ∧ mt.err = false ∧ tx.blockTime = some ts ∧
      tx.accountKeys.get? i = some account ∧
      ActiveIdx mt.preBalances mt.postBalances i ∧
      account ∈ reg.allWallets ∧
      tx.accountKeys.get? j = some other ∧
      ActiveIdx mt.preBalances mt.postBalances j ∧
      other ∈ reg.allWallets ∧ other ≠ account ∧
      ((e.from_wallet = account ∧ e.to_wallet = other) ∨
        (e.from_wallet = other ∧ e.to_wallet = account)) ∧
      e.from_wallet ≠ e.to_wallet ∧
      qualifiesPair reg e.from_wallet e.to_wallet ∧
      e.signature = sig := by
  rcases parse_found_sound reg tx sig e h with
    ⟨mt, hmt, herr, ts, hts, i, account, po, pr, j, other, qo, qr,
      hi, hpo, hpr, hne, hw, hj, hqo, hqr, hne2, hw2, hna2, he, hq⟩
  have hft : (e.from_wallet = account ∧ e.to_wallet = other) ∨
      (e.from_wallet = other ∧ e.to_wallet = account) := by
    by_cases hbc : po - pr < 0
    · left
      rw [he, transferCandidate_neg hbc]
      exact ⟨rfl, rfl⟩
    · right
      rw [he, transferCandidate_nonneg hbc]
      exact ⟨rfl, rfl⟩
  have hneft : e.from_wallet ≠ e.to_wallet := by
    rcases hft with ⟨h1, h2⟩ | ⟨h1, h2⟩
    · rw [h1, h2]; exact Ne.symm hna2
    · rw [h1, h2]; exact hna2
  exact ⟨mt, ts, i, account, j, other, hmt, herr, hts, hi, ⟨po, pr, hpo, hpr, hne⟩, hw,
    hj, ⟨qo, qr, hqo, hqr, hne2⟩, hw2, hna2, hft, hneft, hq, by rw [he]⟩

/-- C6: every TransferEvent the Transfer Detector returns satisfies the
TransferEvent invariant: its amount is strictly positive, its sender and
recipient are distinct addresses, and exactly one of sender/recipient is
the source address while the other is a registry target address. -/
theorem claim6_event_invariant (reg : Registry) (tx : TxDetails) (sig : String)
    (e : TransferEvent) (h : parse_sol_transfer reg tx sig = some e) :
    0 < e.amount_sol ∧ e.from_wallet ≠ e.to_wallet ∧
      ExactlyOneSourceTarget reg e.from_wallet e.to_wallet := by
  have hlam : (0 : ℚ) < lamportsPerSol := by norm_num [lamportsPerSol]
  rcases parse_found_sound reg tx sig e h with
    ⟨mt, hmt, herr, ts, hts, i, account, po, pr, j, other, qo, qr,
      hi, hpo, hpr, hne, hw, hj, hqo, hqr, hne2, hw2, hna2, he, hq⟩
  rcases parse_found_parties reg tx sig e h with
    ⟨mt', ts', i', account', j', other', _, _, _, _, _, _, _, _, _, _, _, hneft, hq', _⟩
  refine ⟨?_, hneft, qualifies_exactlyOne hq' hneft⟩
  by_cases hbc : po - pr < 0
  · rw [he, transferCandidate_neg hbc]
    apply div_pos _ hlam
    have hp : 0 < (po - pr).natAbs := Int.natAbs_pos.mpr hne
    exact_mod_cast hp
  · rw [he, transferCandidate_nonneg hbc]
    apply div_pos _ hlam
    have hp : 0 < po - pr := lt_of_le_of_ne (not_lt.mp hbc) (Ne.symm hne)
    exact_mod_cast hp

/-- Witness for C6 at the concrete two-party transfer. -/
theorem claim6_witness :
    0 < evTwoParty.amount_sol ∧ evTwoParty.from_wallet ≠ evTwoParty.to_wallet ∧
      ExactlyOneSourceTarget theRegistry evTwoParty.from_wallet evTwoParty.to_wallet :=
  claim6_event_invariant theRegistry txTwoParty "sigC2" evTwoParty rfl

/-- C4: the detector returns an event only when exactly one of the two
reported wallets is the source address and the other a target, and only
when the source address occurs in the account list at an index with a
nonzero balance delta; hence a transaction whose only active registry
accounts are targets produces no event. -/
theorem claim4_qualifying_pair (reg : Registry) (tx : TxDetails) (sig : String)
    (e : TransferEvent) (h : parse_sol_transfer reg tx sig = some e) :
    ExactlyOneSourceTarget reg e.from_wallet e.to_wallet ∧
      ∃ mt i, tx.meta = some mt ∧ tx.accountKeys.get? i = some reg.source ∧
        ActiveIdx mt.preBalances mt.postBalances i := by
  rcases parse_found_parties reg tx sig e h with
    ⟨mt, ts, i, account, j, other, hmt, herr, hts, hi, hacti, hw, hj, hactj, hw2,
      hna2, hft, hneft, hq, hsig⟩
  refine ⟨qualifies_exactlyOne hq hneft, ?_⟩
  have hsrc : e.from_wallet = reg.source ∨ e.to_wallet = reg.source := by
    rcases hq with ⟨h1, _⟩ | ⟨_, h2⟩
    · exact Or.inl h1
    · exact Or.inr h2
  rcases hsrc with hs | hs <;> rcases hft with ⟨h1, h2⟩ | ⟨h1, h2⟩
  · exact ⟨mt, i, hmt, by rw [← hs, h1]; exact hi, hacti⟩
  · exact ⟨mt, j, hmt, by rw [← hs, h1]; exact hj, hactj⟩
  · exact ⟨mt, j, hmt, by rw [← hs, h2]; exact hj, hactj⟩
  · exact ⟨mt, i, hmt, by rw [← hs, h2]; exact hi, hacti⟩

/-- Witness for C4 at the concrete two-party transfer. -/
theorem claim4_witness :
    ExactlyOneSourceTarget theRegistry evTwoParty.from_wallet evTwoParty.to_wallet ∧
      ∃ mt i, txTwoParty.meta = some mt ∧
        txTwoParty.accountKeys.get? i = some theRegistry.source ∧
        ActiveIdx mt.preBalances mt.postBalances i :=
  claim4_qualifying_pair theRegistry txTwoParty "sigC2" evTwoParty rfl

/-- C5: a transaction in which all active registry occurrences carry one
single address (which covers both the zero-registry-address case and the
exactly-one-active-registry-address case) produces no event. -/
theorem claim5_no_counterpart_no_event (reg : Registry) (tx : TxDetails) (sig : String)
    (huniq : ∀ mt, tx.meta = some mt →
      ∀ i j a b, tx.accountKeys.get? i = some a → tx.accountKeys.get? j = some b →
        a ∈ reg.allWallets → b ∈ reg.allWallets →
        ActiveIdx mt.preBalances mt.postBalances i →
        ActiveIdx mt.preBalances mt.postBalances j → a = b) :
    parse_sol_transfer reg tx sig = none := by
  cases hp : parse_sol_transfer reg tx sig with
  | none => rfl
  | some e =>
    exfalso
    rcases parse_found_parties reg tx sig e hp with
      ⟨mt, ts, i, account, j, other, hmt, herr, hts, hi, hacti, hw, hj, hactj, hw2,
        hna2, hft, hneft, hq, hsig⟩
    exact hna2 (huniq mt hmt j i other account hj hi hw2 hw hactj hacti)

/-- Witness for C5 at a transaction whose single account is the source
wallet with a nonzero delta and no counterpart. -/
theorem claim5_witness : parse_sol_transfer theRegistry txOnlySource "sigC5" = none := by
  apply claim5_no_counterpart_no_event
  intro mt _ i j a b hi hj _ _ _ _
  have ha : a = binance_wallet := by
    cases i with
    | zero => exact (Option.some.inj hi).symm
    | succ n => simp [txOnlySource, List.get?] at hi
  have hb : b = binance_wallet := by
    cases j with
    | zero => exact (Option.some.inj hj).symm
    | succ n => simp [txOnlySource, List.get?] at hj
  rw [ha, hb]

/-- The balance delta written through get? lookups. -/
theorem deltaAt_eq {pre post : List Int} {n : Nat} {po pr : Int}
    (hpo : post.get? n = some po) (hpr : pre.get? n = some pr) :
    deltaAt pre post n = po - pr := by
  simp only [deltaAt, List.getD_eq_getD_get?, hpo, hpr, Option.getD_some]

/-- C1 counterexample: a successful transaction where the receiving target
(delta +500) precedes the sending source (delta -600) in the account list:
an event is returned whose sender is the source with delta -600, but whose
amount is 500/1e9 rather than abs(-600)/1e9 taken from the sending side. -/
theorem claim1_counterexample :
    parse_sol_transfer theRegistry txC1 "sigC1" = some evC1 ∧
    evC1.from_wallet = theRegistry.source ∧
    txC1.accountKeys.get? 1 = some evC1.from_wallet ∧
    deltaAt [0, 600] [500, 0] 1 = -600 ∧
    evC1.amount_sol ≠ (((-600 : ℤ)).natAbs : ℚ) / lamportsPerSol := by
  refine ⟨rfl, rfl, rfl, rfl, ?_⟩
  show (500 : ℚ) / lamportsPerSol ≠ (((-600 : ℤ)).natAbs : ℚ) / lamportsPerSol
  rw [show ((-600 : ℤ)).natAbs = 600 from rfl]
  norm_num [lamportsPerSol]

/-- C1 amended: when the account list has no duplicates and the two
reported parties carry exactly opposite balance deltas, the sender is the
negative-delta account and the amount is abs(delta)/1e9 taken from the
sending side.  (When the deltas are not opposite, the code takes the
amount from whichever active registry account the outer scan reached
first, which can be the receiving side, as claim1_counterexample shows.) -/
theorem claim1_amended (reg : Registry) (tx : TxDetails) (sig : String)
    (e : TransferEvent) (mt : TxMeta)
    (h : parse_sol_transfer reg tx sig = some e) (hmt : tx.meta = some mt)
    (hnd : tx.accountKeys.Nodup) (i j : Nat)
    (hi : tx.accountKeys.get? i = some e.from_wallet)
    (hj : tx.accountKeys.get? j = some e.to_wallet)
    (hopp : deltaAt mt.preBalances mt.postBalances i
      = -(deltaAt mt.preBalances mt.postBalances j)) :
    deltaAt mt.preBalances mt.postBalances i < 0 ∧
      e.amount_sol
        = ((deltaAt mt.preBalances mt.postBalances i).natAbs : ℚ) / lamportsPerSol := by
  rcases parse_found_sound reg tx sig e h with
    ⟨mt', hmt', herr, ts, hts, i0, account, po, pr, j0, other, qo, qr,
      hi0, hpo, hpr, hne, hw, hj0, hqo, hqr, hne2, hw2, hna2, he, hq⟩
  have hmm : mt' = mt := by
    rw [hmt] at hmt'
    exact (Option.some.inj hmt').symm
  rw [hmm] at hpo hpr hqo hqr
  have hleni0 : i0 < tx.accountKeys.length := (List.get?_eq_some.mp hi0).1
  have hlenj0 : j0 < tx.accountKeys.length := (List.get?_eq_some.mp hj0).1
  have hdi0 : deltaAt mt.preBalances mt.postBalances i0 = po - pr := deltaAt_eq hpo hpr
  have hdj0 : deltaAt mt.preBalances mt.postBalances j0 = qo - qr := deltaAt_eq hqo hqr
  by_cases hbc : po - pr < 0
  · have hfrom : e.from_wallet = account := by rw [he, transferCandidate_neg hbc]
    have hii : i0 = i := by
      apply List.get?_inj hleni0 hnd
      rw [hi0, hi, hfrom]
    subst hii
    constructor
    · rw [hdi0]; exact hbc
    · rw [he, transferCandidate_neg hbc, hdi0]
  · have hfrom : e.from_wallet = other := by rw [he, transferCandidate_nonneg hbc]
    have hto : e.to_wallet = account := by rw [he, transferCandidate_nonneg hbc]
    have hjj : j0 = i := by
      apply List.get?_inj hlenj0 hnd
      rw [hj0, hi, hfrom]
    have hij : i0 = j := by
      apply List.get?_inj hleni0 hnd
      rw [hi0, hj, hto]
    subst hjj
    subst hij
    rw [hdi0, hdj0] at hopp
    have hpos : 0 < po - pr := lt_of_le_of_ne (not_lt.mp hbc) (Ne.symm hne)
    constructor
    · rw [hdj0]
      omega
    · have h2 : ((qo - qr).natAbs : ℚ) = ((po - pr : ℤ) : ℚ) := by
        rw [show qo - qr = -(po - pr) by omega, Int.natAbs_neg, Int.cast_natAbs]
        exact congrArg (fun z : ℤ => (z : ℚ)) (abs_of_pos hpos)
      rw [he, transferCandidate_nonneg hbc, hdj0, h2]

/-- Witness for the amended C1 at the concrete two-party transfer. -/
theorem claim1_amended_witness :
    deltaAt [500000000000, 0] [0, 500000000000] 0 < 0 ∧
      evTwoParty.amount_sol
        = ((deltaAt [500000000000, 0] [0, 500000000000] 0).natAbs : ℚ) / lamportsPerSol :=
  claim1_amended theRegistry txTwoParty "sigC2" evTwoParty
    ⟨false, [500000000000, 0], [0, 500000000000]⟩ rfl rfl (by decide) 0 1 rfl rfl (by decide)

theorem innerScan_cons_skip {reg : Registry} {pre post : List Int} {account other : Addr}
    {bc : Int} {j : Nat} {rest : List Addr}
    (hc : ¬(other ∈ reg.allWallets ∧ other ≠ account)) :
    innerScan reg pre post account bc j (other :: rest)
      = innerScan reg pre post account bc (j + 1) rest := by
  simp only [innerScan]
  rw [if_neg hc]

theorem innerScan_cons_enter {reg : Registry} {pre post : List Int} {account other : Addr}
    {bc : Int} {j : Nat} {rest : List Addr} {po pr : Int}
    (hc : other ∈ reg.allWallets ∧ other ≠ account)
    (hpo : post.get? j = some po) (hpr : pre.get? j = some pr) :
    innerScan reg pre post account bc j (other :: rest) =
      if (po - pr).natAbs > 0 then
        if qualifiesPair reg (transferCandidate account other bc).1
            (transferCandidate account other bc).2.1 then
          .found (transferCandidate account other bc)
        else innerScan reg pre post account bc (j + 1) rest
      else innerScan reg pre post account bc (j + 1) rest := by
  simp only [innerScan]
  rw [if_pos hc, hpo, hpr]

theorem outerScan_cons_skip {reg : Registry} {pre post : List Int} {allKeys : List Addr}
    {account : Addr} {i : Nat} {rest : List Addr}
    (hc : account ∉ reg.allWallets) :
    outerScan reg pre post allKeys i (account :: rest)
      = outerScan reg pre post allKeys (i + 1) rest := by
  simp only [outerScan]
  rw [if_neg hc]

theorem outerScan_cons_enter {reg : Registry} {pre post : List Int} {allKeys : List Addr}
    {account : Addr} {i : Nat} {rest : List Addr} {po pr : Int}
    (hc : account ∈ reg.allWallets)
    (hpo : post.get? i = some po) (hpr : pre.get? i = some pr) :
    outerScan reg pre post allKeys i (account :: rest) =
      if (po - pr).natAbs > 0 then
        match innerScan reg pre post account (po - pr) 0 allKeys with
        | .fail => .fail
        | .found r => .found r
        | .done => outerScan reg pre post allKeys (i + 1) rest
      else outerScan reg pre post allKeys (i + 1) rest := by
  simp only [outerScan]
  rw [if_pos hc, hpo, hpr]

/-- Completeness of the inner scan: when exactly one index holds an active
registry counterpart, and that pair qualifies, the inner scan finds it. -/
theorem innerScan_finds (reg : Registry) (pre post : List Int) (account : Addr) (bc : Int)
    (allKeys : List Addr)
    (hpre : pre.length = allKeys.length) (hpost : post.length = allKeys.length)
    (h : Nat) (hit : Addr)
    (hh : allKeys.get? h = some hit)
    (hw : hit ∈ reg.allWallets) (hne : hit ≠ account)
    (hact : deltaAt pre post h ≠ 0)
    (hq : qualifiesPair reg (transferCandidate account hit bc).1
      (transferCandidate account hit bc).2.1)
    (hskip : ∀ k a, k ≠ h → allKeys.get? k = some a → a ∈ reg.allWallets → a ≠ account →
      deltaAt pre post k = 0) :
    ∀ (suffix : List Addr) (n : Nat),
      (∀ m, suffix.get? m = allKeys.get? (n + m)) → n ≤ h →
      innerScan reg pre post account bc n suffix
        = .found (transferCandidate account hit bc) := by
  intro suffix
  induction suffix with
  | nil =>
    intro n hsuf hnle
    exfalso
    have h0 := hsuf (h - n)
    rw [show n + (h - n) = h by omega, hh] at h0
    simp at h0
  | cons a rest ih =>
    intro n hsuf hnle
    have ha : allKeys.get? n = some a := by
      have h0 := hsuf 0
      rw [Nat.add_zero] at h0
      exact h0.symm
    have hsuf' : ∀ m, rest.get? m = allKeys.get? (n + 1 + m) := by
      intro m
      have h1 := hsuf (m + 1)
      rw [show n + (m + 1) = n + 1 + m by omega] at h1
      exact h1
    have hlen : n < allKeys.length := (List.get?_eq_some.mp ha).1
    by_cases hn : n = h
    · subst hn
      have hah : a = hit := by
        rw [ha] at hh
        exact Option.some.inj hh
      subst hah
      obtain ⟨po, hpo⟩ : ∃ po, post.get? n = some po :=
        ⟨_, List.get?_eq_get (by rw [hpost]; exact hlen)⟩
      obtain ⟨pr, hpr⟩ : ∃ pr, pre.get? n = some pr :=
        ⟨_, List.get?_eq_get (by rw [hpre]; exact hlen)⟩
      have hdelta : po - pr ≠ 0 := by
        rw [deltaAt_eq hpo hpr] at hact
        exact hact
      rw [innerScan_cons_enter ⟨hw, hne⟩ hpo hpr,
        if_pos (by simpa [Int.natAbs_pos] using hdelta), if_pos hq]
    · by_cases hca : a ∈ reg.allWallets ∧ a ≠ account
      · obtain ⟨po, hpo⟩ : ∃ po, post.get? n = some po :=
          ⟨_, List.get?_eq_get (by rw [hpost]; exact hlen)⟩
        obtain ⟨pr, hpr⟩ : ∃ pr, pre.get? n = some pr :=
          ⟨_, List.get?_eq_get (by rw [hpre]; exact hlen)⟩
        have hz : po - pr = 0 := by
          have hz0 := hskip n a hn ha hca.1 hca.2
          rw [deltaAt_eq hpo hpr] at hz0
          exact hz0
        rw [innerScan_cons_enter hca hpo hpr, if_neg (by simp [hz])]
        exact ih (n + 1) hsuf' (by omega)
      · rw [innerScan_cons_skip hca]
        exact ih (n + 1) hsuf' (by omega)

/-- Completeness of the outer scan: if every registry occurrence before
index o is inactive, index o holds an active registry wallet, and the
inner scan from o finds a result, the outer scan returns that result. -/
theorem outerScan_finds (reg : Registry) (pre post : List Int) (allKeys : List Addr)
    (hpre : pre.length = allKeys.length) (hpost : post.length = allKeys.length)
    (o : Nat) (oacct : Addr) (po pr : Int) (res : Addr × Addr × ℚ)
    (ho : allKeys.get? o = some oacct)
    (hw : oacct ∈ reg.allWallets)
    (hpo : post.get? o = some po) (hpr : pre.get? o = some pr)
    (hbc : po - pr ≠ 0)
    (hinner : innerScan reg pre post oacct (po - pr) 0 allKeys = .found res)
    (hskip : ∀ k a, k < o → allKeys.get? k = some a → a ∈ reg.allWallets →
      deltaAt pre post k = 0) :
    ∀ (suffix : List Addr) (n : Nat),
      (∀ m, suffix.get? m = allKeys.get? (n + m)) → n ≤ o →
      outerScan reg pre post allKeys n suffix = .found res := by
  intro suffix
  induction suffix with
  | nil =>
    intro n hsuf hnle
    exfalso
    have h0 := hsuf (o - n)
    rw [show n + (o - n) = o by omega, ho] at h0
    simp at h0
  | cons a rest ih =>
    intro n hsuf hnle
    have ha : allKeys.get? n = some a := by
      have h0 := hsuf 0
      rw [Nat.add_zero] at h0
      exact h0.symm
    have hsuf' : ∀ m, rest.get? m = allKeys.get? (n + 1 + m) := by
      intro m
      have h1 := hsuf (m + 1)
      rw [show n + (m + 1) = n + 1 + m by omega] at h1
      exact h1
    have hlen : n < allKeys.length := (List.get?_eq_some.mp ha).1
    by_cases hn : n = o
    · subst hn
      have hah : a = oacct := by
        rw [ha] at ho
        exact Option.some.inj ho
      subst hah
      rw [outerScan_cons_enter hw hpo hpr,
        if_pos (by simpa [Int.natAbs_pos] using hbc), hinner]
    · by_cases hca : a ∈ reg.allWallets
      · obtain ⟨po2, hpo2⟩ : ∃ x, post.get? n = some x :=
          ⟨_, List.get?_eq_get (by rw [hpost]; exact hlen)⟩
        obtain ⟨pr2, hpr2⟩ : ∃ x, pre.get? n = some x :=
          ⟨_, List.get?_eq_get (by rw [hpre]; exact hlen)⟩
        have hz : po2 - pr2 = 0 := by
          have hz0 := hskip n a (by omega) ha hca
          rw [deltaAt_eq hpo2 hpr2] at hz0
          exact hz0
        rw [outerScan_cons_enter hca hpo2 hpr2, if_neg (by simp [hz])]
        exact ih (n + 1) hsuf' (by omega)
      · rw [outerScan_cons_skip hca]
        exact ih (n + 1) hsuf' (by omega)

/-- Assembling a detector run from its pieces. -/
theorem parse_eq_of_found (reg : Registry) (tx : TxDetails) (sig : String) (mt : TxMeta)
    (fw tw : Addr) (amount : ℚ) (ts : Int)
    (hmt : tx.meta = some mt) (herr : mt.err = false) (hts : tx.blockTime = some ts)
    (houter : outerScan reg mt.preBalances mt.postBalances tx.accountKeys 0 tx.accountKeys
      = .found (fw, tw, amount)) :
    parse_sol_transfer reg tx sig = some ⟨sig, fw, tw, amount, ts⟩ := by
  obtain ⟨meta, keys, bt⟩ := tx
  simp only at hmt hts houter
  subst hmt
  subst hts
  simp only [parse_sol_transfer, herr, Bool.false_eq_true, if_false, houter]

/-- C2: for every successful transaction whose account list has exactly
two active registry accounts, the source with delta -d and a target with
delta +d (d > 0 in lamports), the detector returns the event with sender
the source, recipient the target, and amount d/1e9.  (Lengths of the
balance arrays matching the account list and the presence of a block
timestamp are the Transaction invariants of the data model; the source
not being a target is the registry configuration invariant.) -/
theorem claim2_two_party_transfer (reg : Registry) (tx : TxDetails) (sig : String)
    (mt : TxMeta) (i j : Nat) (t : Addr) (d : Int) (ts : Int)
    (hmt : tx.meta = some mt) (herr : mt.err = false)
    (hlpre : mt.preBalances.length = tx.accountKeys.length)
    (hlpost : mt.postBalances.length = tx.accountKeys.length)
    (hi : tx.accountKeys.get? i = some reg.source)
    (hj : tx.accountKeys.get? j = some t)
    (ht : t ∈ reg.targets)
    (hst : reg.source ∉ reg.targets)
    (hdi : deltaAt mt.preBalances mt.postBalances i = -d)
    (hdj : deltaAt mt.preBalances mt.postBalances j = d)
    (hd : 0 < d)
    (hquiet : ∀ k a, tx.accountKeys.get? k = some a → a ∈ reg.allWallets →
      k ≠ i → k ≠ j → deltaAt mt.preBalances mt.postBalances k = 0)
    (hts : tx.blockTime = some ts) :
    parse_sol_transfer reg tx sig
      = some ⟨sig, reg.source, t, (d : ℚ) / lamportsPerSol, ts⟩ := by
  have hij : i ≠ j := by
    intro hc
    rw [hc, hdj] at hdi
    omega
  have htne : t ≠ reg.source := by
    intro hc
    exact hst (hc ▸ ht)
  have hsne : reg.source ≠ t := fun hc => htne hc.symm
  have hleni : i < tx.accountKeys.length := (List.get?_eq_some.mp hi).1
  have hlenj : j < tx.accountKeys.length := (List.get?_eq_some.mp hj).1
  obtain ⟨poi, hpoi⟩ : ∃ x, mt.postBalances.get? i = some x :=
    ⟨_, List.get?_eq_get (by rw [hlpost]; exact hleni)⟩
  obtain ⟨pri, hpri⟩ : ∃ x, mt.preBalances.get? i = some x :=
    ⟨_, List.get?_eq_get (by rw [hlpre]; exact hleni)⟩
  obtain ⟨poj, hpoj⟩ : ∃ x, mt.postBalances.get? j = some x :=
    ⟨_, List.get?_eq_get (by rw [hlpost]; exact hlenj)⟩
  obtain ⟨prj, hprj⟩ : ∃ x, mt.preBalances.get? j = some x :=
    ⟨_, List.get?_eq_get (by rw [hlpre]; exact hlenj)⟩
  have hdi' : poi - pri = -d := by
    rw [← deltaAt_eq hpoi hpri]
    exact hdi
  have hdj' : poj - prj = d := by
    rw [← deltaAt_eq hpoj hprj]
    exact hdj
  have hsw : reg.source ∈ reg.allWallets := by simp [Registry.allWallets]
  have htw : t ∈ reg.allWallets := by simp [Registry.allWallets, ht]
  rcases lt_or_gt_of_ne hij with hlt | hgt
  · have hbcneg : poi - pri < 0 := by omega
    have hamt : ((poi - pri).natAbs : ℚ) = ((d : ℤ) : ℚ) := by
      rw [hdi', Int.natAbs_neg, Int.cast_natAbs]
      exact congrArg (fun z : ℤ => (z : ℚ)) (abs_of_pos hd)
    have hcand : transferCandidate reg.source t (poi - pri)
        = (reg.source, t, (d : ℚ) / lamportsPerSol) := by
      rw [transferCandidate_neg hbcneg, hamt]
    have hinner : innerScan reg mt.preBalances mt.postBalances reg.source (poi - pri) 0
        tx.accountKeys = .found (transferCandidate reg.source t (poi - pri)) := by
      refine innerScan_finds reg _ _ _ _ tx.accountKeys hlpre hlpost j t hj htw htne
        ?_ ?_ ?_ tx.accountKeys 0 (fun m => by rw [Nat.zero_add]) (Nat.zero_le j)
      · rw [hdj]
        omega
      · rw [transferCandidate_neg hbcneg]
        exact Or.inl ⟨rfl, ht⟩
      · intro k a hkj hk hawal hane
        by_cases hki : k = i
        · subst hki
          rw [hk] at hi
          exact absurd (Option.some.inj hi) hane
        · exact hquiet k a hk hawal hki hkj
    have houter : outerScan reg mt.preBalances mt.postBalances tx.accountKeys 0 tx.accountKeys
        = .found (reg.source, t, (d : ℚ) / lamportsPerSol) := by
      rw [← hcand]
      refine outerScan_finds reg _ _ tx.accountKeys hlpre hlpost i reg.source poi pri _
        hi hsw hpoi hpri (by omega) hinner ?_ tx.accountKeys 0
        (fun m => by rw [Nat.zero_add]) (Nat.zero_le i)
      intro k a hklt hka hawal
      exact hquiet k a hka hawal (by omega) (by omega)
    exact parse_eq_of_found reg tx sig mt reg.source t ((d : ℚ) / lamportsPerSol) ts
      hmt herr hts houter
  · have hbcpos : ¬ poj - prj < 0 := by omega
    have hcand : transferCandidate t reg.source (poj - prj)
        = (reg.source, t, (d : ℚ) / lamportsPerSol) := by
      rw [transferCandidate_nonneg hbcpos, hdj']
    have hinner : innerScan reg mt.preBalances mt.postBalances t (poj - prj) 0
        tx.accountKeys = .found (transferCandidate t reg.source (poj - prj)) := by
      refine innerScan_finds reg _ _ _ _ tx.accountKeys hlpre hlpost i reg.source hi hsw hsne
        ?_ ?_ ?_ tx.accountKeys 0 (fun m => by rw [Nat.zero_add]) (Nat.zero_le i)
      · rw [hdi]
        omega
      · rw [transferCandidate_nonneg hbcpos]
        exact Or.inl ⟨rfl, ht⟩
      · intro k a hki hk hawal hane
        by_cases hkj : k = j
        · subst hkj
          rw [hk] at hj
          exact absurd (Option.some.inj hj) hane
        · exact hquiet k a hk hawal hki hkj
    have houter : outerScan reg mt.preBalances mt.postBalances tx.accountKeys 0 tx.accountKeys
        = .found (reg.source, t, (d : ℚ) / lamportsPerSol) := by
      rw [← hcand]
      refine outerScan_finds reg _ _ tx.accountKeys hlpre hlpost j t poj prj _
        hj htw hpoj hprj (by omega) hinner ?_ tx.accountKeys 0
        (fun m => by rw [Nat.zero_add]) (Nat.zero_le j)
      intro k a hklt hka hawal
      exact hquiet k a hka hawal (by omega) (by omega)
    exact parse_eq_of_found reg tx sig mt reg.source t ((d : ℚ) / lamportsPerSol) ts
      hmt herr hts houter

/-- Witness for C2 at the spec scenario: deltas -500_000_000_000 and
+500_000_000_000 lamports, amount 500 SOL, direction source to target. -/
theorem claim2_witness :
    parse_sol_transfer theRegistry txTwoParty "sigC2"
      = some ⟨"sigC2", theRegistry.source, gate_wallet,
          ((500000000000 : ℤ) : ℚ) / lamportsPerSol, 1700000000⟩ ∧
    ((500000000000 : ℤ) : ℚ) / lamportsPerSol = 500 := by
  constructor
  · refine claim2_two_party_transfer theRegistry txTwoParty "sigC2"
      ⟨false, [500000000000, 0], [0, 500000000000]⟩ 0 1 gate_wallet 500000000000 1700000000
      rfl rfl rfl rfl rfl rfl (by decide) (by decide) (by decide) (by decide) (by decide)
      ?_ rfl
    intro k a hk hwal h0 h1
    have hlen : k < 2 := by
      have hh := (List.get?_eq_some.mp hk).1
      simpa [txTwoParty] using hh
    interval_cases k
    · exact absurd rfl h0
    · exact absurd rfl h1
  · norm_num [lamportsPerSol]

theorem save_transfer_record_signature (reg : Registry) (ev : TransferEvent) :
    (save_transfer_record reg ev).signature = ev.signature := by
  unfold save_transfer_record
  split <;> rfl

theorem countSig_append_single (l : List LedgerRecord) (r : LedgerRecord) (s : String) :
    countSig (l ++ [r]) s = countSig l s + (if r.signature = s then 1 else 0) := by
  by_cases h : r.signature = s <;> simp [countSig, List.filter_append, List.filter, h]

/-- A returned event carries the transaction identifier it was parsed
under. -/
theorem parse_signature_eq (reg : Registry) (tx : TxDetails) (sig : String)
    (e : TransferEvent) (h : parse_sol_transfer reg tx sig = some e) :
    e.signature = sig := by
  rcases parse_found_parties reg tx sig e h with
    ⟨_, _, _, _, _, _, _, _, _, _, _, _, _, _, _, _, _, _, _, hs⟩
  exact hs

/-- A fetched signature ends up marked processed, whatever the detector
said. -/
theorem process_signature_marks (reg : Registry) (details : String → Option TxDetails)
    (st : MonitorState) (sig : String) (txd : TxDetails)
    (hdet : details sig = some txd) :
    sig ∈ (process_signature reg details st sig).processed_signatures := by
  by_cases hmem : sig ∈ st.processed_signatures
  · unfold process_signature
    rw [if_pos hmem]
    exact hmem
  · unfold process_signature
    rw [if_neg hmem, hdet]
    cases hp : parse_sol_transfer reg txd sig <;>
      simp [hp, save_processed_signature]

/-- C10: when the detail fetch yields no result the monitor state is left
unchanged (the signature is not marked processed, so it stays eligible),
while a fetched payload always leaves the signature marked. -/
theorem claim10_fetch_none_unchanged (reg : Registry)
    (details : String → Option TxDetails) (st : MonitorState) (sig : String) :
    (details sig = none → process_signature reg details st sig = st) ∧
    (∀ txd, details sig = some txd →
      sig ∈ (process_signature reg details st sig).processed_signatures) := by
  constructor
  · intro hdet
    by_cases hmem : sig ∈ st.processed_signatures
    · unfold process_signature
      rw [if_pos hmem]
    · unfold process_signature
      rw [if_neg hmem, hdet]
  · intro txd hdet
    exact process_signature_marks reg details st sig txd hdet

/-- Witness for C10: a failing fetch leaves the state unchanged; a
successful fetch marks the signature. -/
theorem claim10_witness :
    process_signature theRegistry detailsNone st0 "sigC10" = st0 ∧
    "sigC10" ∈ (process_signature theRegistry detailsTwoParty st0 "sigC10").processed_signatures :=
  ⟨(claim10_fetch_none_unchanged theRegistry detailsNone st0 "sigC10").1 rfl,
   (claim10_fetch_none_unchanged theRegistry detailsTwoParty st0 "sigC10").2 txTwoParty rfl⟩

/-- C7: processing the same transaction identifier twice never produces
two ledger records: an already-processed identifier is skipped by the
dedup check before the detector runs, a second pass is a no-op, and a
matching transaction yields exactly one ledger record for its identifier
after both passes. -/
theorem claim7_idempotent_processing (reg : Registry)
    (details : String → Option TxDetails) (st : MonitorState) (sig : String) :
    (sig ∈ st.processed_signatures → process_signature reg details st sig = st) ∧
    process_signature reg details (process_signature reg details st sig) sig
      = process_signature reg details st sig ∧
    (∀ txd ev, sig ∉ st.processed_signatures → details sig = some txd →
      parse_sol_transfer reg txd sig = some ev → countSig st.ledger sig = 0 →
      countSig (process_signature reg details st sig).ledger sig = 1 ∧
      countSig (process_signature reg details
        (process_signature reg details st sig) sig).ledger sig = 1) := by
  by_cases hmem : sig ∈ st.processed_signatures
  · have h1 : process_signature reg details st sig = st := by
      unfold process_signature
      rw [if_pos hmem]
    refine ⟨fun _ => h1, by rw [h1, h1], ?_⟩
    intro txd ev hns
    exact absurd hmem hns
  · cases hdet : details sig with
    | none =>
      have h1 : process_signature reg details st sig = st := by
        unfold process_signature
        rw [if_neg hmem, hdet]
      refine ⟨fun hm => absurd hm hmem, by rw [h1, h1], ?_⟩
      intro txd ev hns hdet2
      cases hdet2
    | some txd =>
      cases hparse : parse_sol_transfer reg txd sig with
      | none =>
        have h1 : process_signature reg details st sig
            = save_processed_signature st sig := by
          unfold process_signature
          rw [if_neg hmem]
          simp only [hdet, hparse]
        have hmem2 : sig ∈ (save_processed_signature st sig).processed_signatures := by
          simp [save_processed_signature]
        have h2 : process_signature reg details (save_processed_signature st sig) sig
            = save_processed_signature st sig := by
          unfold process_signature
          rw [if_pos hmem2]
        refine ⟨fun hm => absurd hm hmem, by rw [h1, h2], ?_⟩
        intro txd2 ev hns hdet2 hparse2
        rw [← Option.some.inj hdet2, hparse] at hparse2
        cases hparse2
      | some ev =>
        have h1 : process_signature reg details st sig
            = save_processed_signature
                { st with ledger := st.ledger ++ [save_transfer_record reg ev] } sig := by
          unfold process_signature
          rw [if_neg hmem]
          simp only [hdet, hparse]
        have hmem2 : sig ∈ (save_processed_signature
            { st with ledger := st.ledger ++ [save_transfer_record reg ev] }
            sig).processed_signatures := by
          simp [save_processed_signature]
        have h2 : process_signature reg details (save_processed_signature
              { st with ledger := st.ledger ++ [save_transfer_record reg ev] } sig) sig
            = save_processed_signature
                { st with ledger := st.ledger ++ [save_transfer_record reg ev] } sig := by
          unfold process_signature
          rw [if_pos hmem2]
        have hsigev : (save_transfer_record reg ev).signature = sig := by
          rw [save_transfer_record_signature]
          exact parse_signature_eq reg txd sig ev hparse
        refine ⟨fun hm => absurd hm hmem, by rw [h1, h2], ?_⟩
        intro txd2 ev2 hns hdet2 hparse2 hcount
        have hcount1 : countSig (process_signature reg details st sig).ledger sig = 1 := by
          rw [h1]
          show countSig (st.ledger ++ [save_transfer_record reg ev]) sig = 1
          rw [countSig_append_single, hcount, if_pos hsigev]
        refine ⟨hcount1, ?_⟩
        rw [h1, h2, ← h1, hcount1]

/-- Witness for C7: a fresh signature processed twice against the
two-party transfer payload yields one ledger record and an unchanged
second pass. -/
theorem claim7_witness :
    countSig (process_signature theRegistry detailsTwoParty st0 "sigC7").ledger "sigC7" = 1 ∧
    countSig (process_signature theRegistry detailsTwoParty
      (process_signature theRegistry detailsTwoParty st0 "sigC7") "sigC7").ledger "sigC7" = 1 ∧
    process_signature theRegistry detailsTwoParty
        (process_signature theRegistry detailsTwoParty st0 "sigC7") "sigC7"
      = process_signature theRegistry detailsTwoParty st0 "sigC7" := by
  have h := claim7_idempotent_processing theRegistry detailsTwoParty st0 "sigC7"
  have h3 := h.2.2 txTwoParty
    ⟨"sigC7", binance_wallet, gate_wallet, (500000000000 : ℚ) / lamportsPerSol, 1700000000⟩
    (by simp [st0]) rfl rfl rfl
  exact ⟨h3.1, h3.2, h.2.1⟩

/-- With empty balance arrays every outer-loop iteration either skips a
non-registry account or hits the IndexError path. -/
theorem outerScan_empty_post (reg : Registry) (pre : List Int) (allKeys : List Addr) :
    ∀ (keys : List Addr) (n : Nat),
      outerScan reg pre [] allKeys n keys = .fail ∨
      outerScan reg pre [] allKeys n keys = .done := by
  intro keys
  induction keys with
  | nil =>
    intro n
    right
    rfl
  | cons a rest ih =>
    intro n
    by_cases hca : a ∈ reg.allWallets
    · left
      simp only [outerScan]
      rw [if_pos hca, show ([] : List Int).get? n = none by cases n <;> rfl]
    · rw [outerScan_cons_skip hca]
      exact ih (n + 1)

/-- A payload with empty post balances never produces an event. -/
theorem parse_empty_post_none (reg : Registry) (tx : TxDetails) (sig : String) (mt : TxMeta)
    (hmt : tx.meta = some mt) (hpost : mt.postBalances = []) :
    parse_sol_transfer reg tx sig = none := by
  obtain ⟨meta, keys, bt⟩ := tx
  simp only at hmt
  subst hmt
  simp only [parse_sol_transfer]
  by_cases herr : mt.err = true
  · rw [if_pos herr]
  · rw [if_neg herr, hpost]
    rcases outerScan_empty_post reg mt.preBalances keys keys 0 with hf | hd
    · rw [hf]
    · rw [hd]

/-- C9 counterexample: an incomplete payload (three account keys, two
balance entries) still produces an event when the qualifying pair is
found before any out-of-range lookup, contradicting the claim that every
malformed payload yields no event. -/
theorem claim9_counterexample :
    (txC9.meta.map (fun mt => mt.postBalances.length)).getD 0 < txC9.accountKeys.length ∧
    parse_sol_transfer theRegistry txC9 "sigC9" = some evC9 :=
  ⟨by decide, rfl⟩

/-- C9 amended: a payload missing the metadata section yields no event; a
payload whose post-balance array is empty yields no event (the caught
IndexError path); and whenever the detail fetch succeeded, the identifier
is marked processed regardless of the detector outcome.  (A payload whose
balance arrays are merely shorter than the account list can still yield an
event if the qualifying pair lies inside the covered prefix, as
claim9_counterexample shows.) -/
theorem claim9_amended (reg : Registry) (details : String → Option TxDetails)
    (st : MonitorState) (sig : String) (tx : TxDetails) :
    (tx.meta = none → parse_sol_transfer reg tx sig = none) ∧
    (∀ mt, tx.meta = some mt → mt.postBalances = [] →
      parse_sol_transfer reg tx sig = none) ∧
    (∀ txd, details sig = some txd →
      sig ∈ (process_signature reg details st sig).processed_signatures) := by
  refine ⟨?_, ?_, ?_⟩
  · intro hmeta
    unfold parse_sol_transfer
    rw [hmeta]
  · intro mt hmt hpost
    exact parse_empty_post_none reg tx sig mt hmt hpost
  · intro txd hdet
    exact process_signature_marks reg details st sig txd hdet

/-- Witness for the amended C9 over the three clauses. -/
theorem claim9_witness :
    parse_sol_transfer theRegistry txNoMeta "sigC9w" = none ∧
    parse_sol_transfer theRegistry txEmptyBal "sigC9w" = none ∧
    "sigC9w" ∈ (process_signature theRegistry detailsTwoParty st0 "sigC9w").processed_signatures :=
  ⟨(claim9_amended theRegistry detailsTwoParty st0 "sigC9w" txNoMeta).1 rfl,
   (claim9_amended theRegistry detailsTwoParty st0 "sigC9w" txEmptyBal).2.1 ⟨false, [], []⟩ rfl rfl,
   (claim9_amended theRegistry detailsTwoParty st0 "sigC9w" txNoMeta).2.2 txTwoParty rfl⟩

/-- Scanning past a LF-terminated prefix splits the line list at the
prefix boundary, whatever follows; the invariant afterCR-implies-empty-
line-buffer holds along every run of the scanner. -/
theorem splitLinesGo_append (g : List Char) :
    ∀ (rest : List Char) (afterCR : Bool) (cur : List Char), (afterCR = true → cur = []) →
      splitLinesGo afterCR cur (g ++ '\n' :: rest)
        = splitLinesGo afterCR cur (g ++ ['\n']) ++ splitLinesGo false [] rest := by
  induction g with
  | nil =>
    intro rest afterCR cur hinv
    cases afterCR
    · simp [splitLinesGo]
    · rw [hinv rfl]
      simp [splitLinesGo]
  | cons c g ih =>
    intro rest afterCR cur hinv
    by_cases hcn : c = '\n'
    · subst hcn
      cases afterCR
      · simp [splitLinesGo, ih rest false [] (fun h => nomatch h)]
      · rw [hinv rfl]
        simp [splitLinesGo, ih rest false [] (fun h => nomatch h)]
    · by_cases hcr : c = '\r'
      · subst hcr
        simp [splitLinesGo, hcn, ih rest true [] (fun _ => rfl)]
      · simp [splitLinesGo, hcn, hcr, ih rest false (c :: cur) (fun h => nomatch h)]

/-- A chunk containing neither LF nor CR, terminated by a LF, is read
back as exactly one line. -/
theorem splitLinesGo_line (l : List Char) (hl : ∀ c ∈ l, c ≠ '\n' ∧ c ≠ '\r') :
    ∀ cur, splitLinesGo false cur (l ++ ['\n']) = [cur.reverse ++ l] := by
  induction l with
  | nil =>
    intro cur
    simp [splitLinesGo]
  | cons c l ih =>
    intro cur
    have hc := hl c (by simp)
    have ih' := ih (fun d hd => hl d (by simp [hd])) (c :: cur)
    simp [splitLinesGo, hc.1, hc.2, ih']

theorem splitLinesGo_term_append (f rest : List Char) (hf : TerminatedFile f) :
    splitLinesGo false [] (f ++ rest)
      = splitLinesGo false [] f ++ splitLinesGo false [] rest := by
  rcases hf with rfl | ⟨g, rfl⟩
  · simp [splitLinesGo]
  · rw [show (g ++ ['\n']) ++ rest = g ++ '\n' :: rest by simp]
    exact splitLinesGo_append g rest false [] (fun h => nomatch h)

theorem TerminatedFile_save (st : MonitorState) (x : String) :
    TerminatedFile (save_processed_signature st x).sig_file :=
  Or.inr ⟨st.sig_file ++ x.data, by simp [save_processed_signature]⟩

theorem load_mem_save_self (st : MonitorState) (s : String)
    (hterm : TerminatedFile st.sig_file)
    (hstrip : stripChars s.data = s.data)
    (hnl : ∀ c ∈ s.data, c ≠ '\n' ∧ c ≠ '\r') :
    s ∈ load_processed_signatures (save_processed_signature st s).sig_file := by
  unfold load_processed_signatures save_processed_signature
  rw [List.append_assoc, splitLinesGo_term_append _ _ hterm,
    splitLinesGo_line s.data hnl [], List.map_append]
  apply List.mem_append_right
  simp [hstrip]

theorem load_mem_save_mono (st : MonitorState) (x s : String)
    (hterm : TerminatedFile st.sig_file)
    (hmem : s ∈ load_processed_signatures st.sig_file) :
    s ∈ load_processed_signatures (save_processed_signature st x).sig_file := by
  unfold load_processed_signatures save_processed_signature at *
  rw [List.append_assoc, splitLinesGo_term_append _ _ hterm, List.map_append]
  exact List.mem_append_left _ hmem

theorem saveAllSignatures_cons (st : MonitorState) (x : String) (sigs : List String) :
    saveAllSignatures st (x :: sigs) = saveAllSignatures (save_processed_signature st x) sigs :=
  rfl

theorem saveAll_preserves (sigs : List String) :
    ∀ (st : MonitorState) (s : String), TerminatedFile st.sig_file →
      TerminatedFile (saveAllSignatures st sigs).sig_file ∧
      (s ∈ st.processed_signatures → s ∈ (saveAllSignatures st sigs).processed_signatures) ∧
      (s ∈ load_processed_signatures st.sig_file →
        s ∈ load_processed_signatures (saveAllSignatures st sigs).sig_file) := by
  induction sigs with
  | nil =>
    intro st s hterm
    exact ⟨hterm, id, id⟩
  | cons x rest ih =>
    intro st s hterm
    rw [saveAllSignatures_cons]
    obtain ⟨ht', hp', hl'⟩ := ih (save_processed_signature st x) s (TerminatedFile_save st x)
    refine ⟨ht', ?_, ?_⟩
    · intro hmem
      exact hp' (by simp [save_processed_signature, hmem])
    · intro hmem
      exact hl' (load_mem_save_mono st x s hterm hmem)

/-- C8 counterexample: an identifier with trailing whitespace is marked in
the in-memory set, but the reload strips each line, so containment is not
preserved across the simulated restart. -/
theorem claim8_counterexample :
    "a " ∈ (save_processed_signature st0 "a ").processed_signatures ∧
    "a " ∉ load_processed_signatures (save_processed_signature st0 "a ").sig_file := by
  constructor
  · simp [save_processed_signature]
  · decide

/-- C8 amended: for identifiers that are fixed by Python whitespace
stripping and contain neither a line feed nor a carriage return, marking
a batch of identifiers processed gives in-memory containment, and
containment survives a reload of the durable file under text-mode
universal-newlines reading, provided the file was line-terminated (as
every write keeps it).  (Identifiers with surrounding whitespace are not
preserved across the reload, as claim8_counterexample shows, because the
loader strips each line; identifiers containing a line terminator are
split across lines by the reader.) -/
theorem claim8_amended (st : MonitorState) (sigs : List String) (s : String)
    (hterm : TerminatedFile st.sig_file)
    (hstrip : stripChars s.data = s.data)
    (hnl : ∀ c ∈ s.data, c ≠ '\n' ∧ c ≠ '\r')
    (hmem : s ∈ sigs) :
    s ∈ (saveAllSignatures st sigs).processed_signatures ∧
    s ∈ load_processed_signatures (saveAllSignatures st sigs).sig_file := by
  revert hterm hmem
  induction sigs generalizing st with
  | nil =>
    intro hterm hmem
    cases hmem
  | cons x rest ih =>
    intro hterm hmem
    rw [saveAllSignatures_cons]
    rcases List.mem_cons.mp hmem with rfl | hmem'
    · obtain ⟨ht', hp', hl'⟩ := saveAll_preserves rest (save_processed_signature st s) s
        (TerminatedFile_save st s)
      exact ⟨hp' (by simp [save_processed_signature]),
        hl' (load_mem_save_self st s hterm hstrip hnl)⟩
    · exact ih (save_processed_signature st x) (TerminatedFile_save st x) hmem'

/-- Witness for the amended C8 with two identifiers saved from a fresh
state. -/
theorem claim8_witness :
    "sigA" ∈ (saveAllSignatures st0 ["sigA", "sigB"]).processed_signatures ∧
    "sigA" ∈ load_processed_signatures (saveAllSignatures st0 ["sigA", "sigB"]).sig_file :=
  claim8_amended st0 ["sigA", "sigB"] "sigA" (Or.inl rfl) (by decide) (by decide) (by decide)
